import Mathlib

/-!
Verification of the RekaKata core pipeline (input validation, trending
element selection, AI-response structuring) against its specification.
Python strings are modelled as `List Char` (ASCII semantics); machine
text operations (`str.split`, `str.strip`, `re.sub`, `re.search`, dict
update, `random.sample`, `random.choice`) are modelled explicitly.
Randomness is modelled by oracle parameters constrained by predicates.
-/

namespace RekaKata

/-- A Python string, modelled as a list of characters. -/
abbrev PyStr := List Char

/-- Coerce a Lean string literal to the model type. -/
def S (s : String) : PyStr := s.data

/-- Python whitespace (ASCII fragment): space, tab, newline, carriage
return, vertical tab, form feed. -/
def pyIsSpace (c : Char) : Bool :=
  c = ' ' || c = '\t' || c = '\n' || c = '\r' || c = Char.ofNat 11 || c = Char.ofNat 12

/-- ASCII word character, the `\w` class of `re`. -/
def isWordChar (c : Char) : Bool :=
  ('a' ≤ c && c ≤ 'z') || ('A' ≤ c && c ≤ 'Z') || ('0' ≤ c && c ≤ '9') || c = '_'

/-- ASCII lower-casing of one character, as `str.lower` does per character. -/
def lowerC (c : Char) : Char := c.toLower

/-- ASCII upper-casing of one character, as `str.upper` does per character. -/
def upperC (c : Char) : Char := c.toUpper

/-- The `str.lower` (ASCII model). -/
def lowerL (s : PyStr) : PyStr := s.map lowerC

/-- The `str.upper` (ASCII model). -/
def upperL (s : PyStr) : PyStr := s.map upperC

/-- Does `p` occur at the very start of `s`? -/
def isPre : PyStr → PyStr → Bool
  | [], _ => true
  | _ :: _, [] => false
  | a :: as, b :: bs => a = b && isPre as bs

/-- Python's substring test `needle in hay`. -/
def containsSub (hay needle : PyStr) : Bool :=
  isPre needle hay ||
    match hay with
    | [] => false
    | _ :: t => containsSub t needle

/-- Strip characters satisfying `p` from the front. -/
def dropLead (p : Char → Bool) (s : PyStr) : PyStr := s.dropWhile p

/-- Strip characters satisfying `p` from the back. -/
def dropTrail (p : Char → Bool) (s : PyStr) : PyStr :=
  (s.reverse.dropWhile p).reverse

/-- Python `str.strip(chars)`: remove the given characters from both ends. -/
def stripChars (p : Char → Bool) (s : PyStr) : PyStr :=
  dropTrail p (dropLead p s)

/-- Python `str.strip()` (whitespace form). -/
def pyStrip (s : PyStr) : PyStr := stripChars pyIsSpace s

/-- Worker for `pySplitWs`: `acc` holds the current word reversed. -/
def splitWsAux : PyStr → PyStr → List PyStr
  | [], acc => if acc = [] then [] else [acc.reverse]
  | c :: rest, acc =>
    if pyIsSpace c then
      if acc = [] then splitWsAux rest [] else acc.reverse :: splitWsAux rest []
    else splitWsAux rest (c :: acc)

/-- Python `str.split()` with no argument: split on whitespace runs,
producing no empty tokens. -/
def pySplitWs (s : PyStr) : List PyStr := splitWsAux s []

/-- Join a token list with single spaces, Python's `" ".join(tokens)`. -/
def joinSp : List PyStr → PyStr
  | [] => []
  | [w] => w
  | w :: rest => w ++ ' ' :: joinSp rest

/-- Python `str.split("\n")`: split at every newline, keeping empty pieces. -/
def splitLines : PyStr → List PyStr
  | [] => [[]]
  | c :: rest =>
    if c = '\n' then [] :: splitLines rest
    else
      match splitLines rest with
      | [] => [[c]]
      | h :: t => (c :: h) :: t

/-- Split at every occurrence of character `sep`, keeping empty pieces
(Python `str.split(sep)` for a one-character separator). -/
def splitOnChar (sep : Char) : PyStr → List PyStr
  | [] => [[]]
  | c :: rest =>
    if c = sep then [] :: splitOnChar sep rest
    else
      match splitOnChar sep rest with
      | [] => [[c]]
      | h :: t => (c :: h) :: t

/-- Worker for `pyDedup`: drop elements already in `seen`. -/
def pyDedupAux [DecidableEq α] : List α → List α → List α
  | [], _ => []
  | a :: rest, seen =>
    if a ∈ seen then pyDedupAux rest seen else a :: pyDedupAux rest (a :: seen)

/-- Python `list(dict.fromkeys(l))`: deduplicate keeping first occurrences. -/
def pyDedup [DecidableEq α] (l : List α) : List α := pyDedupAux l []

/-- Assoc-list lookup, Python `d.get(k, default)` restricted to present keys. -/
def aLookup [DecidableEq κ] (k : κ) : List (κ × α) → Option α
  | [] => none
  | kv :: rest => if k = kv.1 then some kv.2 else aLookup k rest

/-- Python `d.get(k, dflt)`. -/
def aLookupD [DecidableEq κ] (k : κ) (d : List (κ × α)) (dflt : α) : α :=
  (aLookup k d).getD dflt

/-- The first option when present, else the second. -/
def firstSome {α : Type} (a b : Option α) : Option α :=
  match a with
  | some v => some v
  | none => b

/-!
## `src/core/input_validator.py` — `InputValidator`
-/

/-- Step 1 of `InputValidator._sanitize`: `" ".join(text.split())`,
collapsing whitespace runs to single spaces and trimming the ends. -/
def collapseWs (s : PyStr) : PyStr := joinSp (pySplitWs s)

/-- Worker for `removeTags`; every step consumes at least one
character, so fuel `length + 1` is never exhausted. Structural
recursion on the fuel keeps the function kernel-reducible. -/
def removeTagsAux : Nat → PyStr → PyStr
  | 0, s => s
  | _ + 1, [] => []
  | fuel + 1, c :: rest =>
    if c = '<' then
      match rest.findIdx? (· = '>') with
      | some i =>
        if i = 0 then '<' :: removeTagsAux fuel rest
        else removeTagsAux fuel (rest.drop (i + 1))
      | none => '<' :: removeTagsAux fuel rest
    else c :: removeTagsAux fuel rest

/-- Step 2 of `InputValidator._sanitize`: `re.sub(r"<[^>]+>", "", s)`.
A match runs from a `<` through the first following `>` with at least one
non-`>` character in between; matches are removed left to right,
non-overlapping. -/
def removeTags (s : PyStr) : PyStr := removeTagsAux (s.length + 1) s

/-- Worker for `removeLitCI` (fuel as in `removeTagsAux`). -/
def removeLitCIAux (lit : PyStr) : Nat → PyStr → PyStr
  | 0, s => s
  | _ + 1, [] => []
  | fuel + 1, c :: rest =>
    if isPre (lowerL lit) (lowerL (c :: rest)) then
      removeLitCIAux lit fuel (rest.drop (lit.length - 1))
    else c :: removeLitCIAux lit fuel rest

/-- Remove every occurrence of the literal `lit` (assumed nonempty),
case-insensitively, left to right and non-overlapping — the effect of
`re.sub(lit, "", s, flags=re.IGNORECASE)` for a literal pattern. -/
def removeLitCI (lit : PyStr) (s : PyStr) : PyStr :=
  removeLitCIAux lit (s.length + 1) s

/-- Try to match `on\w+\s*=` (case-insensitive) at the head of `s`;
return the match length. The `\w+` run and the `\s*` run are maximal,
as the greedy quantifiers with no viable backtracking give. -/
def tryOnAttr (s : PyStr) : Option Nat :=
  match s with
  | c₀ :: c₁ :: rest =>
    if lowerC c₀ = 'o' && lowerC c₁ = 'n' then
      let w := rest.takeWhile isWordChar
      if w = [] then none
      else
        let afterW := rest.drop w.length
        let sp := afterW.takeWhile pyIsSpace
        match afterW.drop sp.length with
        | '=' :: _ => some (2 + w.length + sp.length + 1)
        | _ => none
    else none
  | _ => none

/-- Worker for `removeOnAttr` (fuel as in `removeTagsAux`). -/
def removeOnAttrAux : Nat → PyStr → PyStr
  | 0, s => s
  | _ + 1, [] => []
  | fuel + 1, c :: rest =>
    match tryOnAttr (c :: rest) with
    | some n => removeOnAttrAux fuel (rest.drop (n - 1))
    | none => c :: removeOnAttrAux fuel rest

/-- The `re.sub(r"on\w+\s*=", "", s, flags=re.IGNORECASE)`. A returned
match length is always at least 3, so dropping `n - 1` characters of the
tail is dropping `n` characters of the whole input. -/
def removeOnAttr (s : PyStr) : PyStr := removeOnAttrAux (s.length + 1) s

/-- The `InputValidator._sanitize`: collapse whitespace, strip markup tags,
remove the three dangerous patterns case-insensitively, strip ends. -/
def sanitize (text : PyStr) : PyStr :=
  pyStrip
    (removeLitCI (S "data:text/html")
      (removeOnAttr
        (removeLitCI (S "javascript:")
          (removeTags (collapseWs text)))))

/-- The `InputValidator.min_length`. -/
def minLength : Nat := 5

/-- The `InputValidator.max_length`. -/
def maxLength : Nat := 2000

/-- The `InputValidator._validate_length`. -/
def validateLength (text : PyStr) : Bool :=
  minLength ≤ text.length && text.length ≤ maxLength

/-- The f-string `f"Input must be between {self.min_length} and
{self.max_length} characters"` of `InputValidator.validate`. -/
def lengthErrMsg : PyStr :=
  S "Input must be between " ++ (Nat.repr minLength).data
    ++ S " and " ++ (Nat.repr maxLength).data ++ S " characters"

/-- The four-key entity map of `InputValidator._extract_entities`. -/
structure EntitySet where
  products : List PyStr
  topics : List PyStr
  emotions : List PyStr
  target_audience : List PyStr
deriving DecidableEq, Repr

/-- Python `entities.get(key, [])` on the four-key entity dict. -/
def entGet (e : EntitySet) (k : PyStr) : List PyStr :=
  if k = S "products" then e.products
  else if k = S "topics" then e.topics
  else if k = S "emotions" then e.emotions
  else if k = S "target_audience" then e.target_audience
  else []

/-- Worker for `findAll` (fuel as in `removeTagsAux`). -/
def findAllAux (alts : List PyStr) : Nat → PyStr → List PyStr
  | 0, _ => []
  | _ + 1, [] => []
  | fuel + 1, c :: rest =>
    match alts.find? (fun a => isPre a (c :: rest)) with
    | some a => a :: findAllAux alts fuel (rest.drop (a.length - 1))
    | none => findAllAux alts fuel rest

/-- The `re.findall` for an alternation of nonempty literals over
already-lowercased text: scan left to right; at each position take the
first alternative that matches and continue past it (non-overlapping),
else advance one character. -/
def findAll (alts : List PyStr) (s : PyStr) : List PyStr :=
  findAllAux alts (s.length + 1) s

/-- The `InputValidator._extract_products` keyword patterns. -/
def productPatterns : List (List PyStr) :=
  [[S "skincare"], [S "makeup"], [S "clothing", S "pakaian", S "baju"],
   [S "food", S "makanan"], [S "drink", S "minuman"], [S "gadget"],
   [S "phone", S "handphone", S "hp"], [S "shoes", S "sepatu"],
   [S "bag", S "tas"], [S "book", S "buku"]]

/-- The `InputValidator._extract_topics` keyword patterns. -/
def topicPatterns : List (List PyStr) :=
  [[S "review"], [S "tutorial"], [S "tips"], [S "vlog"], [S "challenge"],
   [S "reaction"], [S "unboxing"], [S "testimoni", S "testimoni", S "review"],
   [S "promosi", S "promosi", S "promo"]]

/-- The `InputValidator._extract_emotions` keyword patterns. -/
def emotionPatterns : List (List PyStr) :=
  [[S "excited", S "exciting", S "seru"],
   [S "happy", S "joyful", S "bahagia", S "senang"],
   [S "sad", S "sadness", S "sedih"], [S "angry", S "furious", S "marah"],
   [S "funny", S "humorous", S "lucu"],
   [S "inspiring", S "motivational", S "inspiratif", S "motivasi"],
   [S "calm", S "peaceful", S "tenang"], [S "energetic", S "energetic"]]

/-- The `InputValidator._extract_target_audience` keyword patterns. -/
def audiencePatterns : List (List PyStr) :=
  [[S "teen", S "teens", S "remaja"], [S "kids", S "children", S "anak-anak"],
   [S "adult", S "adults", S "dewasa"],
   [S "student", S "students", S "mahasiswa", S "pelajar"],
   [S "mom", S "mother", S "moms", S "ibu"],
   [S "professionals", S "profesional"], [S "gamer", S "gamers"]]

/-- One category extractor: run `findall` for each pattern over the
lower-cased text, concatenate, then `list(set(...))`. Python's set
iteration order is unspecified; it is modelled as first-seen order,
which no theorem below depends on. -/
def extractCategory (patterns : List (List PyStr)) (text : PyStr) : List PyStr :=
  pyDedup (patterns.flatMap (fun alts => findAll alts (lowerL text)))

/-- The `InputValidator._extract_entities`. -/
def extractEntities (text : PyStr) : EntitySet :=
  { products := extractCategory productPatterns text
    topics := extractCategory topicPatterns text
    emotions := extractCategory emotionPatterns text
    target_audience := extractCategory audiencePatterns text }

/-- The `InputValidator._detect_language`: the statistical detector
(`langdetect`, an external collaborator) is an oracle returning `none`
when it raises `LangDetectException`, in which case the code falls back
to `"en"`. -/
def detectLanguage (oracle : PyStr → Option PyStr) (text : PyStr) : PyStr :=
  (oracle text).getD (S "en")

/-- The dictionary returned by `InputValidator.validate`. Fields absent
from one of the two result shapes are `none`. -/
structure VResult where
  valid : Bool
  error : Option PyStr
  sanitized : PyStr
  language : Option PyStr
  entities : Option EntitySet
  length : Option Nat
deriving DecidableEq, Repr

/-- The `InputValidator.validate`. -/
def validate (oracle : PyStr → Option PyStr) (text : PyStr) : VResult :=
  let s := sanitize text
  if !validateLength s then
    { valid := false, error := some lengthErrMsg, sanitized := s,
      language := none, entities := none, length := none }
  else
    { valid := true, error := none, sanitized := s,
      language := some (detectLanguage oracle s),
      entities := some (extractEntities s), length := some s.length }

/-!
## `src/core/trending_injector.py` — `TrendingInjector`

The loaded JSON catalog is viewed through its typed fields (`formats`,
`visual_styles`, `hooks`, `cta`, `hashtags`, `sounds`), exactly the keys
the selection code reads with `self.data.get(...)`. `random.choice` and
`random.sample` are oracle parameters; `SampleOK` states what
`random.sample` guarantees (a selection of distinct positions).
-/

/-- One entry of the catalog's `formats` list. -/
structure FormatEntry where
  name : PyStr
  platforms : List PyStr
  keywords : List PyStr
deriving DecidableEq, Repr

/-- One entry of the catalog's `visual_styles` list. -/
structure StyleEntry where
  name : PyStr
  keywords : List PyStr
  style : PyStr
  camera : PyStr
deriving DecidableEq, Repr

/-- One entry of the catalog's `sounds` list (an opaque record; only its
count matters to the code). -/
structure SoundEntry where
  fields : List (PyStr × PyStr)
deriving DecidableEq, Repr

/-- The trending catalog `self.data`, viewed through the keys the
selection code reads (each `self.data.get(key, default)` with the shown
default when the key is absent). -/
structure Catalog where
  formats : List FormatEntry
  visual_styles : List StyleEntry
  hooks : List PyStr
  cta : List PyStr
  hashtags : List (PyStr × List PyStr)
  sounds : List SoundEntry
deriving DecidableEq, Repr

/-- The dictionary built by `TrendingInjector.inject`. -/
structure TrendingBundle where
  format : Option FormatEntry
  visual_style : Option StyleEntry
  hooks : List PyStr
  ctas : List PyStr
  hashtags : List PyStr
  sound_suggestions : List SoundEntry
deriving DecidableEq, Repr

/-- The inner loop of `TrendingInjector._get_matching_format`:
`for format_item in formats: for topic in topics: if any(keyword in
format_item["keywords"] for keyword in format_item["keywords"]): return
format_item`. Note the condition tests the format's own keywords against
themselves, not against `topic`. -/
def formatLoop (formats : List FormatEntry) (topics : List PyStr) : Option FormatEntry :=
  match formats with
  | [] => none
  | f :: rest =>
    if topics.any (fun _ => f.keywords.any (fun kw => decide (kw ∈ f.keywords))) then
      some f
    else formatLoop rest topics

/-- The `TrendingInjector._get_matching_format`; `choice` models
`random.choice`. -/
def getMatchingFormat (choice : List FormatEntry → Option FormatEntry)
    (data : Catalog) (entities : EntitySet) : Option FormatEntry :=
  match formatLoop data.formats (entGet entities (S "topics")) with
  | some f => some f
  | none => if data.formats ≠ [] then choice data.formats else none

/-- The loop of `TrendingInjector._get_visual_style`: first style one of
whose keywords is a substring of the space-joined products ++ topics. -/
def styleLoop (styles : List StyleEntry) (allKw : PyStr) : Option StyleEntry :=
  match styles with
  | [] => none
  | st :: rest =>
    if st.keywords.any (fun kw => containsSub allKw kw) then some st
    else styleLoop rest allKw

/-- The `TrendingInjector._get_visual_style`; `choice` models
`random.choice`. -/
def getVisualStyle (choice : List StyleEntry → Option StyleEntry)
    (data : Catalog) (entities : EntitySet) : Option StyleEntry :=
  let allKw := joinSp (entGet entities (S "products") ++ entGet entities (S "topics"))
  match styleLoop data.visual_styles allKw with
  | some st => some st
  | none => if data.visual_styles ≠ [] then choice data.visual_styles else none

/-- What `random.sample(l, k)` (for `k ≤ len(l)`) guarantees: the result
reads off `k` distinct positions of `l`. -/
def SampleOK (sample : List PyStr → Nat → List PyStr) : Prop :=
  ∀ (l : List PyStr) (k : Nat), k ≤ l.length →
    ∃ idxs : List (Fin l.length),
      idxs.Nodup ∧ idxs.length = k ∧ sample l k = idxs.map l.get

/-- The `TrendingInjector._get_hooks`: `random.sample(all_hooks, min(3,
len(all_hooks)))`. -/
def getHooks (sample : List PyStr → Nat → List PyStr) (data : Catalog) : List PyStr :=
  sample data.hooks (min 3 data.hooks.length)

/-- The `TrendingInjector._get_ctas`: `random.sample(all_ctas, min(2,
len(all_ctas)))`. -/
def getCtas (sample : List PyStr → Nat → List PyStr) (data : Catalog) : List PyStr :=
  sample data.cta (min 2 data.cta.length)

/-- The `category.replace("_", "").replace("s", "")` of
`TrendingInjector._get_hashtags`. -/
def mungeCategory (cat : PyStr) : PyStr :=
  (cat.filter (fun c => c ≠ '_')).filter (fun c => c ≠ 's')

/-- The category loop of `TrendingInjector._get_hashtags`: for each
non-`general` category, look up the entity list under the munged
category name, join it with spaces, and append the category's hashtags
when the category name occurs in the lower-cased join. -/
def hashtagLoop (entries : List (PyStr × List PyStr)) (entities : EntitySet) : List PyStr :=
  match entries with
  | [] => []
  | (cat, tags) :: rest =>
    if cat ≠ S "general" then
      let allEntities := joinSp (entGet entities (mungeCategory cat))
      if containsSub (lowerL allEntities) cat then
        tags ++ hashtagLoop rest entities
      else hashtagLoop rest entities
    else hashtagLoop rest entities

/-- The `TrendingInjector._get_hashtags`: category loop, then the `general`
hashtags, then `list(dict.fromkeys(...))[:15]`. -/
def getHashtags (data : Catalog) (entities : EntitySet) : List PyStr :=
  (pyDedup (hashtagLoop data.hashtags entities
    ++ aLookupD (S "general") data.hashtags [])).take 15

/-- The `TrendingInjector._get_sound_suggestions`: `sounds[:3] if sounds
else []` (equal to `sounds[:3]` in all cases). -/
def getSoundSuggestions (data : Catalog) : List SoundEntry :=
  if data.sounds ≠ [] then data.sounds.take 3 else []

/-- The `TrendingInjector.inject`. -/
def inject (sampleH sampleC : List PyStr → Nat → List PyStr)
    (choiceF : List FormatEntry → Option FormatEntry)
    (choiceS : List StyleEntry → Option StyleEntry)
    (data : Catalog) (entities : EntitySet) : TrendingBundle :=
  { format := getMatchingFormat choiceF data entities
    visual_style := getVisualStyle choiceS data entities
    hooks := getHooks sampleH data
    ctas := getCtas sampleC data
    hashtags := getHashtags data entities
    sound_suggestions := getSoundSuggestions data }

/-!
### `TrendingInjector.update_data` — raw JSON view

`update_data` operates on `self.data` as a raw JSON dictionary
(`self.data.update(new_data)`, then the merged dictionary is written
back to the storage file). JSON values are modelled by `JVal`; the
storage write is modelled by returning the persisted document.
-/

/-- A JSON value as needed for the catalog document. -/
inductive JVal where
  | prim : PyStr → JVal
  | arr : List PyStr → JVal
  | obj : List (PyStr × JVal) → JVal

/-- A JSON document: an ordered dictionary of key/value pairs. -/
abbrev JDoc := List (PyStr × JVal)

/-- Is `k` a key of `d`? -/
def hasKey {α : Type} (d : List (PyStr × α)) (k : PyStr) : Bool :=
  d.any (fun kv => kv.1 = k)

/-- One step of Python `dict.update`: an existing key keeps its position
and gets the new value; a fresh key is appended at the end. -/
def updOne {α : Type} (d : List (PyStr × α)) (kv : PyStr × α) : List (PyStr × α) :=
  if hasKey d kv.1 then
    d.map (fun kv₀ => if kv₀.1 = kv.1 then (kv₀.1, kv.2) else kv₀)
  else d ++ [kv]

/-- Python `d.update(new)`: fold `updOne` over the new pairs. This is a
shallow merge — values of colliding top-level keys are replaced
wholesale. -/
def pyDictUpdate {α : Type} (d new : List (PyStr × α)) : List (PyStr × α) :=
  new.foldl updOne d

/-- The `TrendingInjector.update_data` on the success path: shallow-merge
`new` into the in-memory document and write the result to storage
(modelled as the second component). -/
def updateData (d new : JDoc) : JDoc × Option JDoc :=
  let merged := pyDictUpdate d new
  (merged, some merged)

/-- JSON lookup in an object value, `none` on non-objects. -/
def jObjLookup (k : PyStr) : JVal → Option JVal
  | .obj entries => aLookup k entries
  | _ => none

/-- Modelled from the spec: the deep merge §4.4 claims for
`update(newData)` — nested dictionaries under a common key are merged
recursively, other values are replaced; `fuel` bounds the recursion
depth and is ample for any concrete document below. -/
def deepMergeVal (fuel : Nat) : JVal → JVal → JVal
  | .obj old, .obj new =>
    match fuel with
    | 0 => .obj new
    | fuel' + 1 => .obj (new.foldl (fun acc kv =>
        if hasKey acc kv.1 then
          acc.map (fun kv₀ =>
            if kv₀.1 = kv.1 then (kv₀.1, deepMergeVal fuel' kv₀.2 kv.2) else kv₀)
        else acc ++ [kv]) old)
  | _, newV => newV

/-- Modelled from the spec: deep merge of two documents. -/
def deepMerge (d new : JDoc) : JDoc :=
  match deepMergeVal 16 (.obj d) (.obj new) with
  | .obj merged => merged
  | _ => []

/-!
## `src/core/prompt_engine.py` — `PromptEngine` response structuring

`_extract_script` uses `re.search` with `re.DOTALL | re.IGNORECASE`.
A small backtracking matcher over a regex syntax tree reproduces the
semantics of the three patterns: all literals compare case-insensitively
(`IGNORECASE`), `.` matches any character (`DOTALL`), `^`/`$` keep
their non-`MULTILINE` meaning (`$` matches at the end or just before a
trailing newline). Each pattern has the shape
`PRE (.*?) (?= POST | $)`; because the lookahead's `$` alternative
always succeeds at the end of input, the overall match starts at the
leftmost position where `PRE` matches, the capture is the shortest
extension after `PRE`'s first parse that satisfies the lookahead.
-/

/-- Regex syntax as used by the three script patterns. -/
inductive RE where
  | eps
  | ch : Char → RE
  | any
  | cls : (Char → Bool) → RE
  | seq : RE → RE → RE
  | alt : RE → RE → RE
  | opt : RE → RE
  | starG : RE → RE
  | starL : RE → RE
  | look : RE → RE
  | bos
  | eos

/-- Sequence a list of literal characters. -/
def reStr (s : String) : RE :=
  s.data.foldr (fun c r => RE.seq (RE.ch c) r) RE.eps

/-- Backtracking matcher in continuation-passing style. The
continuation receives the remaining suffix and the number of characters
consumed from the start of the subject; alternatives are tried in
pattern order, `opt`/`starG` prefer consuming, `starL` prefers not
consuming. `fuel` bounds star unrollings (ample at
`length + 1` since every star body here consumes a character). -/
def reMatch : Nat → RE → PyStr → Nat →
    (PyStr → Nat → Option (PyStr × Nat)) → Option (PyStr × Nat)
  | 0, _, _, _, _ => none
  | _ + 1, .eps, s, pos, k => k s pos
  | _ + 1, .ch c, s, pos, k =>
    match s with
    | [] => none
    | x :: rest => if lowerC x = lowerC c then k rest (pos + 1) else none
  | _ + 1, .any, s, pos, k =>
    match s with
    | [] => none
    | _ :: rest => k rest (pos + 1)
  | _ + 1, .cls p, s, pos, k =>
    match s with
    | [] => none
    | x :: rest => if p x then k rest (pos + 1) else none
  | fuel + 1, .seq a b, s, pos, k =>
    reMatch fuel a s pos (fun s' pos' => reMatch fuel b s' pos' k)
  | fuel + 1, .alt a b, s, pos, k =>
    match reMatch fuel a s pos k with
    | some res => some res
    | none => reMatch fuel b s pos k
  | fuel + 1, .opt a, s, pos, k =>
    match reMatch fuel a s pos k with
    | some res => some res
    | none => k s pos
  | fuel + 1, .starG a, s, pos, k =>
    match reMatch fuel a s pos
        (fun s' pos' => reMatch fuel (.starG a) s' pos' k) with
    | some res => some res
    | none => k s pos
  | fuel + 1, .starL a, s, pos, k =>
    match k s pos with
    | some res => some res
    | none =>
      reMatch fuel a s pos (fun s' pos' => reMatch fuel (.starL a) s' pos' k)
  | fuel + 1, .look a, s, pos, k =>
    match reMatch fuel a s pos (fun s' pos' => some (s', pos')) with
    | some _ => k s pos
    | none => none
  | _ + 1, .bos, s, pos, k => if pos = 0 then k s pos else none
  | _ + 1, .eos, s, pos, k =>
    match s with
    | [] => k s pos
    | ['\n'] => k s pos
    | _ => none

/-- Ample fuel for matching the script patterns against `s`: each
nesting level of `reMatch` frames spends one unit; star iterations all
consume input, so a linear budget with generous slack is never
exhausted. -/
def reFuel (s : PyStr) : Nat := 4 * s.length + 200

/-- Does `r` match starting exactly at the head of `s` (at offset
`pos` of the subject)? -/
def reMatchesAt (r : RE) (s : PyStr) (pos : Nat) : Bool :=
  (reMatch (reFuel s) r s pos (fun s' pos' => some (s', pos'))).isSome

/-- The `re.search` for a pattern of the shape `PRE (.*?) (?= POST | $)`:
find the leftmost position where `PRE` matches and return the suffix
after `PRE`'s first parse. -/
def searchPre (pre : RE) (s : PyStr) (pos : Nat) : Option PyStr :=
  match reMatch (reFuel s) pre s pos (fun s' pos' => some (s', pos')) with
  | some (s', _) => some s'
  | none =>
    match s with
    | [] => none
    | _ :: rest => searchPre pre rest (pos + 1)

/-- Lazy capture: the shortest prefix of `suffix` after which
`POST | $` holds; `$` always holds at the very end, so this finds a
capture whenever the search succeeded. -/
def lazyCapture (post : RE) (suffix : PyStr) : PyStr :=
  if reMatchesAt (.alt post .eos) suffix 1 then []
  else
    match suffix with
    | [] => []
    | c :: rest => c :: lazyCapture post rest

/-- The `group(1)` of `re.search(PRE ++ "(.*?)(?=" ++ POST ++ "|$)", s)`. -/
def extractSection (pre post : RE) (s : PyStr) : Option PyStr :=
  match searchPre pre s 0 with
  | some suffix => some (lazyCapture post suffix)
  | none => none

/-- The `(?:##|\*\*|###)?` — the optional emphasis/heading marker. -/
def reMarks : RE :=
  .opt (.alt (reStr "##") (.alt (reStr "**") (reStr "###")))

/-- The `(?:^|\n)(?:##|\*\*|###)?\s*(?:Hook|HOOK).*?(?:\n|$)` — the part of
the `hook` pattern before the capture group. -/
def hookPre : RE :=
  .seq (.alt .bos (.ch '\n'))
    (.seq reMarks
      (.seq (.starG (.cls pyIsSpace))
        (.seq (.alt (reStr "Hook") (reStr "HOOK"))
          (.seq (.starL .any) (.alt (.ch '\n') .eos)))))

/-- The `\n(?:##|\*\*|###)?\s*(?:Body|BODY|CTA|Cta)` — the lookahead of the
`hook` pattern (its final `$` alternative is added by `lazyCapture`). -/
def hookPost : RE :=
  .seq (.ch '\n')
    (.seq reMarks
      (.seq (.starG (.cls pyIsSpace))
        (.alt (reStr "Body") (.alt (reStr "BODY") (.alt (reStr "CTA") (reStr "Cta"))))))

/-- The `(?:^|\n)(?:##|\*\*|###)?\s*(?:Body|BODY).*?(?:\n|$)`. -/
def bodyPre : RE :=
  .seq (.alt .bos (.ch '\n'))
    (.seq reMarks
      (.seq (.starG (.cls pyIsSpace))
        (.seq (.alt (reStr "Body") (reStr "BODY"))
          (.seq (.starL .any) (.alt (.ch '\n') .eos)))))

/-- The `\n(?:##|\*\*|###)?\s*(?:CTA|Cta|Hook|HOOK)`. -/
def bodyPost : RE :=
  .seq (.ch '\n')
    (.seq reMarks
      (.seq (.starG (.cls pyIsSpace))
        (.alt (reStr "CTA") (.alt (reStr "Cta") (.alt (reStr "Hook") (reStr "HOOK"))))))

/-- The `(?:^|\n)(?:##|\*\*|###)?\s*(?:CTA|Cta|Call to Action).*?(?:\n|$)`. -/
def ctaPre : RE :=
  .seq (.alt .bos (.ch '\n'))
    (.seq reMarks
      (.seq (.starG (.cls pyIsSpace))
        (.seq (.alt (reStr "CTA") (.alt (reStr "Cta") (reStr "Call to Action")))
          (.seq (.starL .any) (.alt (.ch '\n') .eos)))))

/-- The `\n(?:##|\*\*|###)?\s*(?:#|---)`. -/
def ctaPost : RE :=
  .seq (.ch '\n')
    (.seq reMarks
      (.seq (.starG (.cls pyIsSpace))
        (.alt (.ch '#') (reStr "---"))))

/-- The `script` dictionary of `PromptEngine._extract_script`. -/
structure Script where
  hook : PyStr
  body : PyStr
  cta : PyStr
deriving DecidableEq, Repr

/-- The `raw_response.replace("\r\n", "\n")`. -/
def replaceCrLf : PyStr → PyStr
  | [] => []
  | '\r' :: '\n' :: rest => '\n' :: replaceCrLf rest
  | c :: rest => c :: replaceCrLf rest

/-- The `content.strip().strip('"').strip("'").strip("*")` of
`PromptEngine._extract_script`. -/
def cleanContent (s : PyStr) : PyStr :=
  stripChars (fun c => c = '*')
    (stripChars (fun c => c = Char.ofNat 39)
      (stripChars (fun c => c = '"') (pyStrip s)))

/-- Run one section pattern and overwrite the field only when the
cleaned capture is nonempty. -/
def scriptField (pre post : RE) (text : PyStr) (dflt : PyStr) : PyStr :=
  match extractSection pre post text with
  | some capture =>
    let content := cleanContent capture
    if content ≠ [] then content else dflt
  | none => dflt

/-- The `PromptEngine._extract_script`: all fields stay `"N/A"` unless the
case-insensitive marker `SCRIPT` occurs; otherwise each of `hook`,
`body`, `cta` is extracted by its pattern. -/
def extract_script (raw : PyStr) : Script :=
  if !containsSub (upperL raw) (S "SCRIPT") then
    { hook := S "N/A", body := S "N/A", cta := S "N/A" }
  else
    let text := replaceCrLf raw
    { hook := scriptField hookPre hookPost text (S "N/A")
      body := scriptField bodyPre bodyPost text (S "N/A")
      cta := scriptField ctaPre ctaPost text (S "N/A") }

/-- The line-collecting loop of `PromptEngine._extract_master_prompt`:
a line containing the marker (re)opens the section and is skipped;
inside the section, a line whose stripped form starts with `#`, or that
contains `---`, ends the collection; nonempty lines are collected
stripped and with surrounding double quotes removed. -/
def mpCollect (lines : List PyStr) (inSec : Bool) : List PyStr :=
  match lines with
  | [] => []
  | l :: rest =>
    if containsSub l (S "MASTER PROMPT") then mpCollect rest true
    else if inSec then
      if isPre (S "#") (pyStrip l) || containsSub l (S "---") then []
      else if pyStrip l ≠ [] then
        stripChars (fun c => c = '"') (pyStrip l) :: mpCollect rest inSec
      else mpCollect rest inSec
    else mpCollect rest inSec

/-- The `PromptEngine._extract_master_prompt`. -/
def extract_master_prompt (raw : PyStr) : PyStr :=
  if containsSub raw (S "MASTER PROMPT") then
    joinSp (mpCollect (splitLines raw) false)
  else if raw ≠ [] then (splitLines raw).headD []
  else S "N/A"

/-- The `specs` dictionary of `PromptEngine._extract_visual_specs`. -/
structure VisualSpecs where
  style : PyStr
  camera : PyStr
  lighting : PyStr
  aspect : PyStr
  mood : PyStr
deriving DecidableEq, Repr

/-- The default `specs` values (`Aspect Ratio` starts at `"9:16"`, the
rest at `"N/A"`). -/
def defaultSpecs : VisualSpecs :=
  { style := S "N/A", camera := S "N/A", lighting := S "N/A",
    aspect := S "9:16", mood := S "N/A" }

/-- The `if key in specs: specs[key] = value` over the five fixed keys. -/
def setSpec (sp : VisualSpecs) (key value : PyStr) : VisualSpecs :=
  if key = S "Style" then { sp with style := value }
  else if key = S "Camera" then { sp with camera := value }
  else if key = S "Lighting" then { sp with lighting := value }
  else if key = S "Aspect Ratio" then { sp with aspect := value }
  else if key = S "Mood" then { sp with mood := value }
  else sp

/-- One table row: `parts = [p.strip() for p in line.split("|") if
p.strip()]`; with at least two parts, assign `parts[1]` to key
`parts[0]` when the key is in the schema. -/
def parseRow (line : PyStr) (sp : VisualSpecs) : VisualSpecs :=
  let parts := ((splitOnChar '|' line).map pyStrip).filter (fun p => p ≠ [])
  match parts with
  | key :: value :: _ => setSpec sp key value
  | _ => sp

/-- The line loop of `PromptEngine._extract_visual_specs`: a line
containing `VISUAL` or `Visual` opens the section and is skipped; inside
the section a `---` line is skipped, a `|` line without `---` is parsed
as a table row, and a line containing `#` but not `VISUAL` ends the loop
(after any row parse on the same line). -/
def vsLoop (lines : List PyStr) (inSec : Bool) (sp : VisualSpecs) : VisualSpecs :=
  match lines with
  | [] => sp
  | l :: rest =>
    if containsSub l (S "VISUAL") || containsSub l (S "Visual") then
      vsLoop rest true sp
    else if inSec && containsSub l (S "---") then vsLoop rest inSec sp
    else
      let sp' :=
        if inSec && containsSub l (S "|") && !containsSub l (S "---") then
          parseRow l sp
        else sp
      if inSec && containsSub l (S "#") && !containsSub l (S "VISUAL") then sp'
      else vsLoop rest inSec sp'

/-- The `PromptEngine._extract_visual_specs`. -/
def extract_visual_specs (raw : PyStr) : VisualSpecs :=
  if containsSub raw (S "VISUAL SPECIFICATIONS")
      || containsSub raw (S "Visual Specifications") then
    vsLoop (splitLines raw) false defaultSpecs
  else defaultSpecs

/-- A line ending hashtag collection in `PromptEngine._extract_hashtags`:
its stripped form starts with `#`, does not start with `"# "`, and has
no further `#` after the first character. -/
def hashtagBreakLine (l : PyStr) : Bool :=
  isPre (S "#") (pyStrip l) && !isPre (S "# ") (pyStrip l)
    && !containsSub (List.drop 1 (pyStrip l)) (S "#")

/-- The line-collecting loop of `PromptEngine._extract_hashtags`: a
line containing `HASHTAGS` or `Hashtags` (re)opens the section and is
skipped; inside the section, a `hashtagBreakLine` or a line containing
`---` ends the collection; nonempty lines are collected stripped. -/
def htCollect (lines : List PyStr) (inSec : Bool) : List PyStr :=
  match lines with
  | [] => []
  | l :: rest =>
    if containsSub l (S "HASHTAGS") || containsSub l (S "Hashtags") then
      htCollect rest true
    else if inSec then
      if hashtagBreakLine l then []
      else if containsSub l (S "---") then []
      else if pyStrip l ≠ [] then pyStrip l :: htCollect rest inSec
      else htCollect rest inSec
    else htCollect rest inSec

/-- Token extraction of `PromptEngine._extract_hashtags`: per collected
line, each whitespace-delimited token starting with `#` contributes
`w.replace("#", "")` — the token with every `#` deleted. -/
def htTokens (lines : List PyStr) : List PyStr :=
  lines.flatMap (fun l =>
    ((pySplitWs l).filter (fun w => isPre (S "#") w)).map
      (fun w => w.filter (fun c => c ≠ '#')))

/-- The `PromptEngine._extract_hashtags`. -/
def extract_hashtags (raw : PyStr) (trendingHashtags : List PyStr) : List PyStr :=
  if containsSub raw (S "HASHTAGS") || containsSub raw (S "Hashtags") then
    let collected := htCollect (splitLines raw) false
    if collected ≠ [] then
      let tags := htTokens collected
      if tags ≠ [] then tags else trendingHashtags.take 15
    else trendingHashtags.take 15
  else trendingHashtags.take 15

/-- The structured record built by `PromptEngine._structure_result`. -/
structure StructuredPrompt where
  master_prompt : PyStr
  visual_specifications : VisualSpecs
  script : Script
  hashtags : List PyStr
  language : PyStr
  raw_response : PyStr
deriving DecidableEq, Repr

/-- The `PromptEngine._structure_result`: `raw_response =
ai_result.get("raw_response", "")`, then the four independent
extractors (the `platform_specifics` argument is unused by the code and
omitted). The hashtag fallback reads `trending_elements["hashtags"]`,
the bundle's hashtag list. -/
def structure_result (aiRaw : Option PyStr) (trending : TrendingBundle)
    (language : PyStr) : StructuredPrompt :=
  let raw := aiRaw.getD []
  { master_prompt := extract_master_prompt raw
    visual_specifications := extract_visual_specs raw
    script := extract_script raw
    hashtags := extract_hashtags raw trending.hashtags
    language := language
    raw_response := raw }

/-!
## Spec-side definitions for refinement comparisons

These restate algorithms in the words of the specification (as amended
where the spec's words disagree with the code); the theorems below
compare them with the code-side definitions.
-/

/-- Modelled from the amended spec words: a heading-like line ending the
hashtag collection — its stripped form starts with `#` NOT immediately
followed by a space, and carries no further `#` after the first
character. -/
def specHeadingLike (l : PyStr) : Bool :=
  decide ((pyStrip l).head? = some '#')
    && !decide ((pyStrip l).tail.head? = some ' ')
    && (pyStrip l).tail.all (fun c => c ≠ '#')

/-- Modelled from the amended spec words: collect stripped nonempty
lines after the marker, skipping further marker lines, stopping at a
heading-like or horizontal-rule line. -/
def specCollectBody : List PyStr → List PyStr
  | [] => []
  | l :: rest =>
    if containsSub l (S "HASHTAGS") || containsSub l (S "Hashtags") then
      specCollectBody rest
    else if specHeadingLike l || containsSub l (S "---") then []
    else if pyStrip l = [] then specCollectBody rest
    else pyStrip l :: specCollectBody rest

/-- Modelled from the amended spec words: find the first line holding a
literal `HASHTAGS`/`Hashtags` marker and collect from the lines after
it. -/
def specCollect (lines : List PyStr) : List PyStr :=
  match lines.findIdx?
      (fun l => containsSub l (S "HASHTAGS") || containsSub l (S "Hashtags")) with
  | some i => specCollectBody (lines.drop (i + 1))
  | none => []

/-- Modelled from the amended spec words: from the collected lines keep
each whitespace-delimited token that begins with `#`, deleting every `#`
it contains. -/
def specTokens (lines : List PyStr) : List PyStr :=
  lines.flatMap (fun l =>
    (pySplitWs l).filterMap (fun w =>
      if w.head? = some '#' then some (w.filter (fun c => c ≠ '#')) else none))

/-- Modelled from the amended spec words: the whole hashtag extraction;
when the marker is absent or no token was found, fall back to the first
15 bundle hashtags. -/
def specExtractHashtags (raw : PyStr) (trendingHashtags : List PyStr) : List PyStr :=
  if containsSub raw (S "HASHTAGS") || containsSub raw (S "Hashtags") then
    let tags := specTokens (specCollect (splitLines raw))
    if tags ≠ [] then tags else trendingHashtags.take 15
  else trendingHashtags.take 15

/-!
## Whitespace predicates (for the sanitizer claims)
-/

/-- No two consecutive whitespace characters. -/
def noWsRun : PyStr → Bool
  | [] => true
  | [_] => true
  | a :: b :: rest => !(pyIsSpace a && pyIsSpace b) && noWsRun (b :: rest)

/-- The first character, if any, is not whitespace. -/
def headNoWs : PyStr → Bool
  | [] => true
  | c :: _ => !pyIsSpace c

/-- The last character, if any, is not whitespace. -/
def lastNoWs (s : PyStr) : Bool := headNoWs s.reverse

/-!
## Concrete inputs used by the closed theorems
-/

/-- The round-trip fragment of the spec's testable property
(also the body of `test_script_extraction.py::test_standard_format`,
with `X`, `Y`, `Z` as contents). -/
def roundTripFragment : PyStr :=
  S "## Hook [0:00-0:03]\nX\n\n## Body [0:03-0:45]\nY\n\n## CTA [0:45-0:60]\nZ"

/-- A small concrete trending bundle. -/
def bundleA : TrendingBundle :=
  { format := none, visual_style := none, hooks := [], ctas := [],
    hashtags := [S "#a"], sound_suggestions := [] }

/-- A `random.choice` stand-in for formats (the counterexamples never
reach the random branch). -/
def headChoiceF : List FormatEntry → Option FormatEntry := fun l => l.head?

/-- A `random.choice` stand-in for styles. -/
def headChoiceS : List StyleEntry → Option StyleEntry := fun l => l.head?

/-- A format whose keywords do not meet the topics below. -/
def fmtPov : FormatEntry :=
  { name := S "POV", platforms := [S "tiktok"], keywords := [S "pov"] }

/-- A format whose keywords do meet the topics below. -/
def fmtTut : FormatEntry :=
  { name := S "Tutorial", platforms := [S "tiktok"], keywords := [S "tutorial"] }

/-- Catalog for the format-selection counterexample: the intersecting
format comes second. -/
def catalogC4 : Catalog :=
  { formats := [fmtPov, fmtTut], visual_styles := [], hooks := [], cta := [],
    hashtags := [], sounds := [] }

/-- Entities whose `topics` meet `fmtTut`'s keywords only. -/
def entsTopics : EntitySet :=
  { products := [], topics := [S "tutorial"], emotions := [], target_audience := [] }

/-- Catalog for the hashtag-category counterexample: a `skincare`
category before the `general` one. -/
def catalogC5 : Catalog :=
  { formats := [], visual_styles := [], hooks := [], cta := [],
    hashtags := [(S "skincare", [S "#glow"]), (S "general", [S "#fyp", S "#viral"])],
    sounds := [] }

/-- Entities whose `products` hold exactly the category name
`skincare`. -/
def entsC5 : EntitySet :=
  { products := [S "skincare"], topics := [], emotions := [], target_audience := [] }

/-- A legitimate `random.sample` stand-in: take the first `k` elements
(positions `0..k-1`, distinct). -/
def takeSample : List PyStr → Nat → List PyStr := fun l k => l.take k

/-- Catalog whose hook list holds the same string twice. -/
def catalogDupHooks : Catalog :=
  { formats := [], visual_styles := [], hooks := [S "a", S "a"], cta := [],
    hashtags := [], sounds := [] }

/-- Entities with no matches at all. -/
def entsNone : EntitySet :=
  { products := [], topics := [], emotions := [], target_audience := [] }

/-- The in-memory catalog document for the update counterexample. -/
def docD : JDoc :=
  [(S "hashtags", .obj [(S "general", .arr [S "#fyp"]), (S "skincare", .arr [S "#glow"])]),
   (S "hooks", .arr [S "h1"])]

/-- The update payload for the update counterexample. -/
def docN : JDoc :=
  [(S "hashtags", .obj [(S "food", .arr [S "#yum"])])]

/-!
## Theorems
-/

/-- Claim C1: the spec's round-trip property demands that any text
containing the Hook/Body/CTA fragment structures to `hook = "X"`,
`body = "Y"`, `cta = "Z"`; the repository's own
`test_script_extraction.py` asserts the same on exactly this text. The
code instead leaves all three fields at `"N/A"` there, because the
fragment lacks the case-insensitive `SCRIPT` marker the guard requires;
with the marker prefixed, the very same fragment does extract to
`X`/`Y`/`Z`, confirming the guard (not the patterns) as the defect. -/
theorem c1_script_round_trip_eval :
    extract_script roundTripFragment
        = { hook := S "N/A", body := S "N/A", cta := S "N/A" }
      ∧ containsSub (upperL roundTripFragment) (S "SCRIPT") = false
      ∧ extract_script (S "SCRIPT\n" ++ roundTripFragment)
        = { hook := S "X", body := S "Y", cta := S "Z" } :=
  ⟨by decide, by decide, by decide⟩

/-- Claim C2 (counterexample): on the empty generated text the
`Aspect Ratio` visual-spec value is `"9:16"`, not `"N/A"` as the claim
states for all visual-spec values. -/
theorem c2_aspect_default_counter :
    (structure_result (some []) bundleA (S "id")).visual_specifications.aspect
        = S "9:16"
      ∧ S "9:16" ≠ S "N/A" :=
  ⟨by decide, by decide⟩

/-- Claim C2 (amended): structuring the empty generated text yields the
documented defaults — `master_prompt` and the three script fields are
`"N/A"`, the visual specs are at their defaults (`"N/A"` everywhere
except `Aspect Ratio`, which is `"9:16"`), and the hashtags fall back to
the first 15 bundle hashtags. `structure_result` is a total function,
so no input raises. -/
theorem c2_structure_empty_defaults (trending : TrendingBundle) (lang : PyStr) :
    structure_result (some []) trending lang =
      { master_prompt := S "N/A"
        visual_specifications := defaultSpecs
        script := { hook := S "N/A", body := S "N/A", cta := S "N/A" }
        hashtags := trending.hashtags.take 15
        language := lang
        raw_response := [] } := rfl

/-- Claim C3 (counterexample): two failing inputs whose sanitized
lengths differ (3 and 1) receive the identical error value, which
mentions neither `3` nor `1` — the error carries the bounds but not the
actual length. -/
theorem c3_error_omits_length_counter :
    (validate (fun _ => none) (S "x y")).sanitized.length = 3
      ∧ (validate (fun _ => none) (S "a")).sanitized.length = 1
      ∧ (validate (fun _ => none) (S "x y")).error = some lengthErrMsg
      ∧ (validate (fun _ => none) (S "a")).error = some lengthErrMsg
      ∧ containsSub lengthErrMsg (S "3") = false
      ∧ containsSub lengthErrMsg (S "1") = false := by
  refine ⟨by decide, by decide, by decide, by decide, by decide, by decide⟩

/-- The `validateLength` unfolded to its arithmetic meaning. -/
theorem validateLength_iff (s : PyStr) :
    validateLength s = true ↔ (minLength ≤ s.length ∧ s.length ≤ maxLength) := by
  simp [validateLength]

/-- Claim C3 (amended): validation fails exactly when the sanitized
text's length leaves `[5, 2000]`; every failure carries the one fixed
error message, which contains both bounds (but not the actual
length). -/
theorem c3_length_bounds (oracle : PyStr → Option PyStr) (text : PyStr) :
    ((validate oracle text).valid = false ↔
        ¬(minLength ≤ (sanitize text).length ∧ (sanitize text).length ≤ maxLength))
      ∧ ((validate oracle text).valid = false →
          (validate oracle text).error = some lengthErrMsg)
      ∧ containsSub lengthErrMsg (S "5") = true
      ∧ containsSub lengthErrMsg (S "2000") = true := by
  refine ⟨?_, ?_, by decide, by decide⟩
  · by_cases h : minLength ≤ (sanitize text).length ∧ (sanitize text).length ≤ maxLength
    · have ht : validateLength (sanitize text) = true := (validateLength_iff _).mpr h
      simp [validate, ht, h]
    · have hf : validateLength (sanitize text) = false := by
        cases hb : validateLength (sanitize text)
        · rfl
        · exact absurd ((validateLength_iff _).mp hb) h
      simp [validate, hf, h]
  · intro h
    cases hb : validateLength (sanitize text)
    · simp [validate, hb]
    · simp [validate, hb] at h

/-- Claim C3 (witness): the theorem applied to the concrete input
`"ab"`, whose sanitized form has length 2. -/
theorem c3_length_bounds_witness :
    (validate (fun _ => none) (S "ab")).valid = false
      ∧ (validate (fun _ => none) (S "ab")).error = some lengthErrMsg :=
  ⟨(c3_length_bounds (fun _ => none) (S "ab")).1.mpr (by decide),
   (c3_length_bounds (fun _ => none) (S "ab")).2.1
     ((c3_length_bounds (fun _ => none) (S "ab")).1.mpr (by decide))⟩

/-- The `entities.get("topics", [])` is the topics field. -/
theorem entGet_topics (e : EntitySet) : entGet e (S "topics") = e.topics := by
  unfold entGet
  rw [if_neg (by decide), if_pos rfl]

/-- The `l.any` of a constant predicate. -/
theorem any_const {α : Type} (l : List α) (b : Bool) :
    l.any (fun _ => b) = (!l.isEmpty && b) := by
  induction l with
  | nil => simp
  | cons a t ih => cases b <;> simp [ih]

/-- The self-intersection test of `_get_matching_format` degenerates to
a nonemptiness test of the format's own keyword list. -/
theorem formatSelfTest (f : FormatEntry) :
    (f.keywords.any (fun kw => decide (kw ∈ f.keywords))) = !f.keywords.isEmpty := by
  cases hk : f.keywords with
  | nil => simp
  | cons a t => simp [hk, List.any_cons]

/-- The inner loop of `_get_matching_format`, characterised: with no
topics it never returns; with any topic it returns the first format
whose keyword list is nonempty. -/
theorem formatLoop_eq (formats : List FormatEntry) (topics : List PyStr) :
    formatLoop formats topics =
      if topics = [] then none
      else formats.find? (fun f => !f.keywords.isEmpty) := by
  induction formats with
  | nil => cases topics <;> simp [formatLoop]
  | cons f rest ih =>
    by_cases ht : topics = []
    · subst ht
      simp [formatLoop, ih]
    · have hne : topics.isEmpty = false := by
        cases topics
        · exact absurd rfl ht
        · rfl
      rw [formatLoop, any_const, formatSelfTest] at *
      rw [hne]
      simp only [Bool.not_false, Bool.true_and]
      by_cases hkw : f.keywords.isEmpty
      · simp [hkw, ih, ht, List.find?]
      · have : f.keywords.isEmpty = false := by
          cases hx : f.keywords.isEmpty
          · rfl
          · exact absurd hx hkw
        simp [this, ht, List.find?]

/-- Claim C4 (counterexample): with topics `["tutorial"]` and catalog
formats `[POV(keywords=["pov"]), Tutorial(keywords=["tutorial"])]`, a
format whose keywords intersect the topics exists (`Tutorial`), yet the
code deterministically returns `POV`, whose keywords do not intersect
the topics — not the first intersecting format, and not a random one. -/
theorem c4_first_format_counter :
    getMatchingFormat headChoiceF catalogC4 entsTopics = some fmtPov
      ∧ fmtPov.keywords.all (fun kw => decide (kw ∉ entsTopics.topics)) = true
      ∧ fmtTut.keywords.any (fun kw => decide (kw ∈ entsTopics.topics)) = true
      ∧ fmtTut ∈ catalogC4.formats
      ∧ fmtPov ≠ fmtTut := by
  refine ⟨by decide, by decide, by decide, by decide, by decide⟩

/-- Claim C4 (amended): when the extracted topics are nonempty, format
selection returns the first catalog format with a nonempty keyword list
(the matching test compares a format's keywords against themselves);
when the topics are empty, or no format has keywords, it returns a
random catalog format, or `None` on an empty catalog — and the result is
always a catalog member when the catalog is nonempty. -/
theorem c4_format_selection (choice : List FormatEntry → Option FormatEntry)
    (data : Catalog) (e : EntitySet)
    (hc : ∀ l, l ≠ [] → ∃ f, choice l = some f ∧ f ∈ l) :
    (e.topics ≠ [] →
        getMatchingFormat choice data e =
          match data.formats.find? (fun f => !f.keywords.isEmpty) with
          | some f => some f
          | none => if data.formats ≠ [] then choice data.formats else none)
      ∧ (e.topics = [] →
          getMatchingFormat choice data e =
            if data.formats ≠ [] then choice data.formats else none)
      ∧ (data.formats ≠ [] →
          ∃ f, getMatchingFormat choice data e = some f ∧ f ∈ data.formats) := by
  unfold getMatchingFormat
  rw [entGet_topics, formatLoop_eq]
  refine ⟨?_, ?_, ?_⟩
  · intro ht
    simp [ht]
  · intro ht
    simp [ht]
  · intro hf
    by_cases ht : e.topics = []
    · obtain ⟨f, hcf, hmem⟩ := hc data.formats hf
      refine ⟨f, ?_, hmem⟩
      simp [ht, hf, hcf]
    · cases hfind : data.formats.find? (fun f => !f.keywords.isEmpty) with
      | some f =>
        refine ⟨f, ?_, List.mem_of_find?_eq_some hfind⟩
        simp [ht, hfind]
      | none =>
        obtain ⟨f, hcf, hmem⟩ := hc data.formats hf
        refine ⟨f, ?_, hmem⟩
        simp [ht, hfind, hf, hcf]

/-- The `l.head?` is a legitimate `random.choice`: defined and a member on
every nonempty list. -/
theorem headChoiceF_ok : ∀ l : List FormatEntry, l ≠ [] → ∃ f, headChoiceF l = some f ∧ f ∈ l := by
  intro l hl
  cases l with
  | nil => exact absurd rfl hl
  | cons a t => exact ⟨a, rfl, List.mem_cons_self a t⟩

/-- Claim C4 (witness): the amended theorem applied to the concrete
catalog of the counterexample. -/
theorem c4_format_selection_witness :
    getMatchingFormat headChoiceF catalogC4 entsTopics = some fmtPov := by
  have h := (c4_format_selection headChoiceF catalogC4 entsTopics headChoiceF_ok).1
    (by decide)
  rw [h]
  decide

/-- Deleting every `s` leaves a string without `s`. -/
theorem munge_no_s (cat : PyStr) : 's' ∉ mungeCategory cat := by
  intro hmem
  have h := List.mem_filter.mp hmem
  simp at h

/-- Deleting every `_` (first step of the munge) leaves a string
without `_`. -/
theorem munge_no_underscore (cat : PyStr) : '_' ∉ mungeCategory cat := by
  intro hmem
  have h := List.mem_filter.mp (List.mem_filter.mp hmem).1
  simp at h

/-- The munged category name never equals one of the four entity keys:
`products`, `topics` and `emotions` contain an `s`, and
`target_audience` contains an `_`, all of which the munge deletes — so
the lookup is always empty. -/
theorem entGet_munge_nil (e : EntitySet) (cat : PyStr) :
    entGet e (mungeCategory cat) = [] := by
  unfold entGet
  rw [if_neg (fun h => munge_no_s cat (by rw [h]; decide)),
    if_neg (fun h => munge_no_s cat (by rw [h]; decide)),
    if_neg (fun h => munge_no_s cat (by rw [h]; decide)),
    if_neg (fun h => munge_no_underscore cat (by rw [h]; decide))]

/-- Under nonempty category names, the category loop of `_get_hashtags`
contributes nothing. -/
theorem hashtagLoop_nil (entries : List (PyStr × List PyStr)) (e : EntitySet)
    (h : ∀ kv ∈ entries, kv.1 ≠ []) : hashtagLoop entries e = [] := by
  induction entries with
  | nil => rfl
  | cons kv rest ih =>
    obtain ⟨cat, tags⟩ := kv
    have hcat : cat ≠ [] := h (cat, tags) (List.mem_cons_self _ _)
    have hrest := ih (fun kv hkv => h kv (List.mem_cons_of_mem _ hkv))
    unfold hashtagLoop
    by_cases hg : cat ≠ S "general"
    · rw [if_pos hg, entGet_munge_nil]
      have hc : containsSub (lowerL (joinSp [])) cat = false := by
        cases cat with
        | nil => exact absurd rfl hcat
        | cons c t => rfl
      simp [hc, hrest]
    · rw [if_neg hg]
      exact hrest

/-- Claim C5 (counterexample): the `skincare` category's name appears
among the entity values (`products = ["skincare"]`) and its hashtags
come first in the catalog, yet the bundle's hashtags are only the
`general` ones — `#glow` is never appended. -/
theorem c5_category_ignored_counter :
    getHashtags catalogC5 entsC5 = [S "#fyp", S "#viral"]
      ∧ S "skincare" ∈ entsC5.products
      ∧ aLookup (S "skincare") catalogC5.hashtags = some [S "#glow"]
      ∧ S "#glow" ∉ getHashtags catalogC5 entsC5 := by
  refine ⟨by decide, by decide, by decide, by decide⟩

/-- Claim C5 (amended): a non-general category contributes its hashtags
only when the category name occurs in the space-joined entity list found
under the key obtained by deleting every `_` and every `s` from the
category name; that key never matches any of the four entity keys
(`products`, `topics`, `emotions` contain an `s`, `target_audience` an
`_`), so for any catalog whose category names are nonempty
the bundle's hashtags are exactly the `general` category's hashtags,
deduplicated preserving first-seen order and truncated to 15. -/
theorem c5_hashtags_general_only (data : Catalog) (e : EntitySet)
    (h : ∀ kv ∈ data.hashtags, kv.1 ≠ []) :
    getHashtags data e =
      (pyDedup (aLookupD (S "general") data.hashtags [])).take 15 := by
  unfold getHashtags
  rw [hashtagLoop_nil data.hashtags e h]
  rfl

/-- Claim C5 (witness): the amended theorem applied to the concrete
catalog of the counterexample. -/
theorem c5_hashtags_general_only_witness :
    getHashtags catalogC5 entsC5 =
      (pyDedup (aLookupD (S "general") catalogC5.hashtags [])).take 15 :=
  c5_hashtags_general_only catalogC5 entsC5 (by decide)

/-- A one-character needle is a prefix iff it is the head. -/
theorem isPre_singleton (c : Char) (l : PyStr) :
    isPre [c] l = true ↔ l.head? = some c := by
  cases l with
  | nil => simp [isPre]
  | cons x xs => simp [isPre, eq_comm]

/-- A one-character needle occurs iff some character equals it. -/
theorem containsSub_singleton (l : PyStr) (c : Char) :
    containsSub l [c] = l.any (fun x => x = c) := by
  induction l with
  | nil => rfl
  | cons x t ih =>
    unfold containsSub
    simp [isPre, ih, eq_comm]

/-- Absence of a character, in `all`-form. -/
theorem not_contains_eq_all_ne (l : PyStr) (c : Char) :
    (!containsSub l [c]) = l.all (fun x => x ≠ c) := by
  rw [containsSub_singleton]
  induction l with
  | nil => rfl
  | cons x t ih => simp [ih, List.any_cons, List.all_cons]

/-- The code's break test for hashtag collection equals the amended
spec's heading-like predicate. -/
theorem hashtagBreak_eq_spec (l : PyStr) :
    hashtagBreakLine l = specHeadingLike l := by
  unfold hashtagBreakLine specHeadingLike
  cases hs : pyStrip l with
  | nil => rfl
  | cons c rest =>
    by_cases hc : c = '#'
    · subst hc
      have h1 : isPre (S "#") ('#' :: rest) = true := by simp [S, isPre]
      have h2 : isPre (S "# ") ('#' :: rest) = isPre [' '] rest := by
        simp [S, isPre]
      have h3 : isPre [' '] rest = decide (rest.head? = some ' ') := by
        cases hr : rest.head? with
        | none =>
          cases rest
          · rfl
          · simp at hr
        | some r =>
          cases rest with
          | nil => simp at hr
          | cons y ys =>
            simp at hr
            subst hr
            simp [isPre, eq_comm]
      rw [h1, h2, h3]
      simp only [List.drop_one, List.tail_cons, List.head?_cons,
        Option.some.injEq, Bool.true_and]
      rw [show S "#" = ['#'] from rfl, not_contains_eq_all_ne]
      simp
    · have h1 : isPre (S "#") (c :: rest) = false := by
        simp [S, isPre, Ne.symm hc]
      rw [h1]
      simp [hc]

/-- The in-section hashtag collection loop equals the amended spec's
collection. -/
theorem htCollect_true_eq (lines : List PyStr) :
    htCollect lines true = specCollectBody lines := by
  induction lines with
  | nil => rfl
  | cons l rest ih =>
    unfold htCollect specCollectBody
    by_cases hm : (containsSub l (S "HASHTAGS") || containsSub l (S "Hashtags")) = true
    · simp only [hm, if_pos, ih]
    · rw [if_neg hm, if_neg hm, if_pos rfl]
      rw [← hashtagBreak_eq_spec]
      by_cases hb : hashtagBreakLine l = true
      · simp [hb]
      · have hb' : hashtagBreakLine l = false := by
          cases hx : hashtagBreakLine l
          · rfl
          · exact absurd hx hb
        by_cases hr : containsSub l (S "---") = true
        · simp [hb', hr]
        · have hr' : containsSub l (S "---") = false := by
            cases hx : containsSub l (S "---")
            · rfl
            · exact absurd hx hr
          by_cases hstrip : pyStrip l = []
          · simp [hb', hr', hstrip, ih]
          · simp [hb', hr', hstrip, ih]

/-- The out-of-section hashtag loop equals the amended spec's
find-the-marker-then-collect description. -/
theorem htCollect_false_eq (lines : List PyStr) :
    htCollect lines false = specCollect lines := by
  unfold specCollect
  induction lines with
  | nil => rfl
  | cons l rest ih =>
    by_cases hm : (containsSub l (S "HASHTAGS") || containsSub l (S "Hashtags")) = true
    · unfold htCollect
      rw [if_pos hm, List.findIdx?_cons]
      simp only [hm, if_pos]
      rw [List.drop_succ_cons, List.drop_zero]
      exact htCollect_true_eq rest
    · unfold htCollect
      rw [if_neg hm, if_neg (Bool.false_ne_true), List.findIdx?_cons]
      have hm' : (containsSub l (S "HASHTAGS") || containsSub l (S "Hashtags")) = false := by
        cases hx : (containsSub l (S "HASHTAGS") || containsSub l (S "Hashtags"))
        · rfl
        · exact absurd hx hm
      rw [hm']
      simp only [Bool.false_eq_true, if_false]
      rw [ih]
      cases hfind : rest.findIdx?
          (fun l => containsSub l (S "HASHTAGS") || containsSub l (S "Hashtags")) with
      | none => simp [hfind]
      | some i => simp [hfind, List.drop_succ_cons]

/-- Filtering then mapping equals a `filterMap` with a guarded
function. -/
theorem filter_map_eq_filterMap {α β : Type} (p : α → Bool) (f : α → β) (l : List α) :
    (l.filter p).map f = l.filterMap (fun a => if p a then some (f a) else none) := by
  induction l with
  | nil => rfl
  | cons a t ih => by_cases h : p a <;> simp [h, ih]

/-- The code's token extraction equals the amended spec's. -/
theorem htTokens_eq (lines : List PyStr) : htTokens lines = specTokens lines := by
  unfold htTokens specTokens
  have hfun : ∀ w : PyStr,
      (if isPre (S "#") w then some (w.filter (fun c => c ≠ '#')) else none)
        = (if w.head? = some '#' then some (w.filter (fun c => c ≠ '#')) else none) := by
    intro w
    have hx : isPre (S "#") w = true ↔ w.head? = some '#' := isPre_singleton '#' w
    by_cases hw : w.head? = some '#'
    · rw [if_pos (hx.mpr hw), if_pos hw]
    · rw [if_neg (fun hcond => hw (hx.mp hcond)), if_neg hw]
  induction lines with
  | nil => rfl
  | cons l rest ih =>
    rw [List.flatMap_cons, List.flatMap_cons, ih, filter_map_eq_filterMap]
    congr 1
    exact congrArg (fun fn => List.filterMap fn (pySplitWs l)) (funext hfun)

/-- Claim C6 (counterexample): per the claim, in
`"HASHTAGS\n#skincare\n#fyp"` the tokens `#skincare` and `#fyp` would be
extracted (a line starting `#` without a following space is not
heading-like in the claim's words); the code instead treats
`"#skincare"` as a section-ending heading and falls back to the bundle
hashtags. -/
theorem c6_single_hashtag_breaks_counter :
    extract_hashtags (S "HASHTAGS\n#skincare\n#fyp") [S "#a"] = [S "#a"]
      ∧ hashtagBreakLine (S "#skincare") = true
      ∧ S "skincare" ∉ extract_hashtags (S "HASHTAGS\n#skincare\n#fyp") [S "#a"]
      ∧ extract_hashtags (S "hashtags\n#skincare #fyp") [S "#b"] = [S "#b"] := by
  refine ⟨by decide, by decide, by decide, by decide⟩

/-- Claim C6 (amended): hashtag extraction equals the spec-side
description with three corrections — the marker is the literal
`HASHTAGS` or `Hashtags` (not any casing), collection stops at a line
starting with `#` NOT immediately followed by a space (with no further
`#`), and every `#` of a token is deleted (not only the leading one);
the claim's concrete example holds: `"# HASHTAGS\n#skincare #fyp"`
extracts `skincare` then `fyp`. -/
theorem c6_hashtag_extraction :
    (∀ (raw : PyStr) (th : List PyStr),
        extract_hashtags raw th = specExtractHashtags raw th)
      ∧ (∀ th : List PyStr,
          extract_hashtags (S "# HASHTAGS\n#skincare #fyp") th
            = [S "skincare", S "fyp"]) := by
  constructor
  · intro raw th
    unfold extract_hashtags specExtractHashtags
    by_cases hm : (containsSub raw (S "HASHTAGS") || containsSub raw (S "Hashtags")) = true
    · rw [if_pos hm, if_pos hm]
      rw [htCollect_false_eq]
      by_cases hcol : specCollect (splitLines raw) = []
      · rw [hcol]
        simp [htTokens_eq, specTokens]
      · rw [if_pos ?_]
        · rw [htTokens_eq]
        · exact hcol
    · rw [if_neg hm, if_neg hm]
  · intro th
    rfl

/-- The `pyDedupAux` yields distinct elements avoiding the seen set. -/
theorem pyDedupAux_nodup {α : Type} [DecidableEq α] :
    ∀ (l seen : List α), (pyDedupAux l seen).Nodup ∧ ∀ a ∈ pyDedupAux l seen, a ∉ seen := by
  intro l
  induction l with
  | nil => intro seen; exact ⟨List.nodup_nil, by simp [pyDedupAux]⟩
  | cons a rest ih =>
    intro seen
    unfold pyDedupAux
    by_cases h : a ∈ seen
    · rw [if_pos h]
      exact ih seen
    · rw [if_neg h]
      obtain ⟨hnd, havoid⟩ := ih (a :: seen)
      refine ⟨List.nodup_cons.mpr ⟨fun hmem => ?_, hnd⟩, ?_⟩
      · exact havoid a hmem (List.mem_cons_self a seen)
      · intro x hx
        cases List.mem_cons.mp hx with
        | inl hxa => exact hxa ▸ h
        | inr hxt => exact fun hxs => havoid x hxt (List.mem_cons_of_mem a hxs)

/-- The `list(dict.fromkeys(...))` has no duplicates. -/
theorem pyDedup_nodup {α : Type} [DecidableEq α] (l : List α) : (pyDedup l).Nodup :=
  (pyDedupAux_nodup l []).1

/-- A valid sample always has length `k` (no duplicate-freeness of the
list needed). -/
theorem sample_length {sample : List PyStr → Nat → List PyStr} (hs : SampleOK sample)
    (l : List PyStr) (k : Nat) (hk : k ≤ l.length) :
    (sample l k).length = k := by
  obtain ⟨idxs, _, hlen, heq⟩ := hs l k hk
  rw [heq, List.length_map, hlen]

/-- A valid sample of a duplicate-free list is duplicate-free. -/
theorem sample_nodup {sample : List PyStr → Nat → List PyStr} (hs : SampleOK sample)
    (l : List PyStr) (k : Nat) (hk : k ≤ l.length) (hl : l.Nodup) :
    (sample l k).Nodup := by
  obtain ⟨idxs, hnd, _, heq⟩ := hs l k hk
  rw [heq]
  exact hnd.map (List.nodup_iff_injective_get.mp hl)

/-- The `takeSample` is a legitimate `random.sample`: it reads the distinct
positions `0..k-1`. -/
theorem takeSample_ok : SampleOK takeSample := by
  intro l k hk
  refine ⟨(List.finRange l.length).take k, ?_, ?_, ?_⟩
  · exact ((List.finRange l.length).take_sublist k).nodup (List.nodup_finRange _)
  · rw [List.length_take, List.length_finRange]
    exact Nat.min_eq_left hk
  · show l.take k = _
    rw [List.map_take, List.finRange_map_get]

/-- Claim C7 (counterexample): `takeSample` is a legitimate sample (it
reads distinct positions), yet on a catalog whose hook list holds the
same string twice the bundle's hooks repeat a value. -/
theorem c7_duplicate_hooks_counter :
    SampleOK takeSample
      ∧ (inject takeSample takeSample headChoiceF headChoiceS
          catalogDupHooks entsNone).hooks = [S "a", S "a"]
      ∧ ¬(inject takeSample takeSample headChoiceF headChoiceS
          catalogDupHooks entsNone).hooks.Nodup :=
  ⟨takeSample_ok, by decide, by decide⟩

/-- Claim C7 (amended): for every entity set and every catalog — with
no restriction on the catalog's contents — the bundle has at most 3
hooks, at most 2 CTAs, at most 15 hashtags with no duplicates, and at
most 3 sounds; the hooks and CTAs are drawn from distinct catalog
positions, so they additionally repeat no value whenever the catalog's
hook and CTA lists are themselves duplicate-free. -/
theorem c7_bundle_size_limits (sampleH sampleC : List PyStr → Nat → List PyStr)
    (choiceF : List FormatEntry → Option FormatEntry)
    (choiceS : List StyleEntry → Option StyleEntry)
    (data : Catalog) (entities : EntitySet)
    (hH : SampleOK sampleH) (hC : SampleOK sampleC) :
    (inject sampleH sampleC choiceF choiceS data entities).hooks.length ≤ 3
      ∧ (inject sampleH sampleC choiceF choiceS data entities).ctas.length ≤ 2
      ∧ (inject sampleH sampleC choiceF choiceS data entities).hashtags.length ≤ 15
      ∧ (inject sampleH sampleC choiceF choiceS data entities).hashtags.Nodup
      ∧ (inject sampleH sampleC choiceF choiceS data entities).sound_suggestions.length ≤ 3
      ∧ (data.hooks.Nodup →
          (inject sampleH sampleC choiceF choiceS data entities).hooks.Nodup)
      ∧ (data.cta.Nodup →
          (inject sampleH sampleC choiceF choiceS data entities).ctas.Nodup) := by
  have hlg := sample_length hH data.hooks (min 3 data.hooks.length) (Nat.min_le_right _ _)
  have clg := sample_length hC data.cta (min 2 data.cta.length) (Nat.min_le_right _ _)
  refine ⟨?_, ?_, ?_, ?_, ?_, ?_, ?_⟩
  · show (getHooks sampleH data).length ≤ 3
    unfold getHooks
    rw [hlg]
    exact Nat.min_le_left _ _
  · show (getCtas sampleC data).length ≤ 2
    unfold getCtas
    rw [clg]
    exact Nat.min_le_left _ _
  · show (getHashtags data entities).length ≤ 15
    unfold getHashtags
    exact List.length_take_le _ _
  · show (getHashtags data entities).Nodup
    unfold getHashtags
    exact (List.take_sublist _ _).nodup (pyDedup_nodup _)
  · show (getSoundSuggestions data).length ≤ 3
    unfold getSoundSuggestions
    by_cases h : data.sounds ≠ []
    · rw [if_pos h]
      exact List.length_take_le _ _
    · rw [if_neg h]
      exact Nat.zero_le 3
  · intro hhooks
    show (getHooks sampleH data).Nodup
    exact sample_nodup hH data.hooks _ (Nat.min_le_right _ _) hhooks
  · intro hcta
    show (getCtas sampleC data).Nodup
    exact sample_nodup hC data.cta _ (Nat.min_le_right _ _) hcta

/-- Claim C7 (witness): the amended theorem applied to the catalog of
the counterexample, whose hook list holds a duplicate — the size bounds
and hashtag dedup still hold there — and, through the conditional
clauses, to a concrete duplicate-free catalog as well. -/
theorem c7_bundle_size_limits_witness :
    ((inject takeSample takeSample headChoiceF headChoiceS catalogDupHooks entsNone).hooks.length ≤ 3
      ∧ (inject takeSample takeSample headChoiceF headChoiceS catalogDupHooks entsNone).ctas.length ≤ 2
      ∧ (inject takeSample takeSample headChoiceF headChoiceS catalogDupHooks entsNone).hashtags.length ≤ 15
      ∧ (inject takeSample takeSample headChoiceF headChoiceS catalogDupHooks entsNone).hashtags.Nodup
      ∧ (inject takeSample takeSample headChoiceF headChoiceS catalogDupHooks entsNone).sound_suggestions.length ≤ 3)
      ∧ ((inject takeSample takeSample headChoiceF headChoiceS catalogC5 entsC5).hooks.Nodup
        ∧ (inject takeSample takeSample headChoiceF headChoiceS catalogC5 entsC5).ctas.Nodup) :=
  ⟨(fun h => ⟨h.1, h.2.1, h.2.2.1, h.2.2.2.1, h.2.2.2.2.1⟩)
    (c7_bundle_size_limits takeSample takeSample headChoiceF headChoiceS
      catalogDupHooks entsNone takeSample_ok takeSample_ok),
   (fun h => ⟨h.2.2.2.2.2.1 (by decide), h.2.2.2.2.2.2 (by decide)⟩)
    (c7_bundle_size_limits takeSample takeSample headChoiceF headChoiceS
      catalogC5 entsC5 takeSample_ok takeSample_ok)⟩

/-- Keys absent from the association list look up to nothing. -/
theorem aLookup_eq_none {α : Type} (k : PyStr) (d : List (PyStr × α))
    (h : k ∉ d.map Prod.fst) : aLookup k d = none := by
  induction d with
  | nil => rfl
  | cons kv rest ih =>
    have h1 : ¬k = kv.1 := fun he =>
      h (List.mem_map.mpr ⟨kv, List.mem_cons_self _ _, he.symm⟩)
    have h2 : k ∉ rest.map Prod.fst := fun hm => by
      obtain ⟨x, hx, hfst⟩ := List.mem_map.mp hm
      exact h (List.mem_map.mpr ⟨x, List.mem_cons_of_mem _ hx, hfst⟩)
    simp [aLookup, h1, ih h2]

/-- Present keys look up to something. -/
theorem aLookup_isSome_of_mem {α : Type} (k : PyStr) (d : List (PyStr × α))
    (h : k ∈ d.map Prod.fst) : ∃ v, aLookup k d = some v := by
  induction d with
  | nil => exact absurd h (List.not_mem_nil k)
  | cons kv rest ih =>
    by_cases hk : k = kv.1
    · exact ⟨kv.2, by simp [aLookup, hk]⟩
    · have h2 : k ∈ rest.map Prod.fst := by
        obtain ⟨x, hx, hfst⟩ := List.mem_map.mp h
        rcases List.mem_cons.mp hx with h3 | h3
        · exact absurd (hfst ▸ congrArg Prod.fst h3) hk
        · exact List.mem_map.mpr ⟨x, h3, hfst⟩
      obtain ⟨v, hv⟩ := ih h2
      exact ⟨v, by simp [aLookup, hk, hv]⟩

/-- The `hasKey` agrees with key membership. -/
theorem hasKey_iff {α : Type} (d : List (PyStr × α)) (k : PyStr) :
    hasKey d k = true ↔ k ∈ d.map Prod.fst := by
  constructor
  · intro h
    obtain ⟨x, hxmem, hx⟩ := List.any_eq_true.mp h
    exact List.mem_map.mpr ⟨x, hxmem, of_decide_eq_true hx⟩
  · intro h
    obtain ⟨x, hxmem, hfst⟩ := List.mem_map.mp h
    exact List.any_eq_true.mpr ⟨x, hxmem, decide_eq_true hfst⟩

/-- Looking up in an appended association list. -/
theorem aLookup_append {α : Type} (k : PyStr) (d₁ d₂ : List (PyStr × α)) :
    aLookup k (d₁ ++ d₂) =
      match aLookup k d₁ with
      | some v => some v
      | none => aLookup k d₂ := by
  induction d₁ with
  | nil => rfl
  | cons kv rest ih =>
    by_cases hk : k = kv.1
    · simp [aLookup, hk]
    · simp [aLookup, hk, ih]

/-- The lookup in the replaced map: a present `k₀` binding becomes
`v₀`, everything else is untouched. -/
theorem aLookup_mapReplace {α : Type} (d : List (PyStr × α)) (k₀ : PyStr) (v₀ : α)
    (k : PyStr) :
    aLookup k (d.map (fun kv => if kv.1 = k₀ then (kv.1, v₀) else kv)) =
      if k = k₀ then
        (match aLookup k d with
         | some _ => some v₀
         | none => none)
      else aLookup k d := by
  induction d with
  | nil => by_cases hk : k = k₀ <;> simp [aLookup, hk]
  | cons kv rest ih =>
    by_cases h1 : kv.1 = k₀
    · by_cases hk : k = kv.1
      · simp [aLookup, h1, hk, hk.trans h1]
      · have hk0 : ¬k = k₀ := fun he => hk (he.trans h1.symm)
        simp [aLookup, h1, hk, hk0, ih]
    · by_cases hk : k = kv.1
      · have hk0 : ¬k = k₀ := fun he => h1 (hk.symm.trans he : kv.1 = k₀)
        simp [aLookup, h1, hk, hk0]
      · simp [aLookup, h1, hk, ih]

/-- The lookup after one `dict.update` step. -/
theorem aLookup_updOne {α : Type} (d : List (PyStr × α)) (k₀ : PyStr) (v₀ : α)
    (k : PyStr) :
    aLookup k (updOne d (k₀, v₀)) = if k = k₀ then some v₀ else aLookup k d := by
  unfold updOne
  by_cases hk : hasKey d k₀
  · rw [if_pos hk, aLookup_mapReplace]
    by_cases hkk : k = k₀
    · subst hkk
      obtain ⟨v, hv⟩ := aLookup_isSome_of_mem k d ((hasKey_iff d k).mp hk)
      simp [hv]
    · simp [hkk]
  · rw [if_neg hk, aLookup_append]
    have hmem : k₀ ∉ d.map Prod.fst := fun hm => hk ((hasKey_iff d k₀).mpr hm)
    by_cases hkk : k = k₀
    · subst hkk
      rw [aLookup_eq_none k d hmem]
      simp [aLookup]
    · rw [if_neg hkk]
      cases hx : aLookup k d
      · simp [aLookup, hkk]
      · rfl

/-- The lookup after `dict.update` with duplicate-free new keys: new
bindings win, old ones survive otherwise. -/
theorem aLookup_pyDictUpdate {α : Type} (d n : List (PyStr × α))
    (hn : (n.map Prod.fst).Nodup) (k : PyStr) :
    aLookup k (pyDictUpdate d n) = firstSome (aLookup k n) (aLookup k d) := by
  induction n generalizing d with
  | nil => rfl
  | cons kv rest ih =>
    obtain ⟨k₀, v₀⟩ := kv
    rw [List.map_cons, List.nodup_cons] at hn
    show aLookup k (pyDictUpdate (updOne d (k₀, v₀)) rest) = _
    rw [ih (updOne d (k₀, v₀)) hn.2, aLookup_updOne]
    by_cases hkk : k = k₀
    · subst hkk
      rw [aLookup_eq_none k rest hn.1]
      simp [aLookup, firstSome]
    · cases hx : aLookup k rest with
      | none => simp [aLookup, firstSome, hkk, hx]
      | some v => simp [aLookup, firstSome, hkk, hx]

/-- Claim C9 (counterexample): updating `{hashtags: {general, skincare},
hooks}` with `{hashtags: {food}}` replaces the whole `hashtags` mapping
(the `general` key is gone), whereas the claimed deep merge preserves it
— `dict.update` is a shallow merge. -/
theorem c9_shallow_vs_deep_counter :
    (updateData docD docN).fst
        = [(S "hashtags", .obj [(S "food", .arr [S "#yum"])]),
           (S "hooks", .arr [S "h1"])]
      ∧ deepMerge docD docN
        = [(S "hashtags", .obj [(S "general", .arr [S "#fyp"]),
            (S "skincare", .arr [S "#glow"]), (S "food", .arr [S "#yum"])]),
           (S "hooks", .arr [S "h1"])]
      ∧ jObjLookup (S "general")
          ((aLookup (S "hashtags") (updateData docD docN).fst).getD (.arr [])) = none
      ∧ jObjLookup (S "general")
          ((aLookup (S "hashtags") (deepMerge docD docN)).getD (.arr []))
        = some (.arr [S "#fyp"])
      ∧ (updateData docD docN).fst ≠ deepMerge docD docN := by
  refine ⟨rfl, rfl, rfl, rfl, ?_⟩
  intro h
  have h2 := congrArg
    (fun m => jObjLookup (S "general") ((aLookup (S "hashtags") m).getD (JVal.arr []))) h
  have h3 : (none : Option JVal) = some (JVal.arr [S "#fyp"]) := h2
  exact Option.noConfusion h3

/-- Claim C9 (amended): `update_data` shallow-merges the new document
into the in-memory catalog — a colliding top-level key takes the new
value wholesale, any other key keeps its old value (so nested mappings
such as the hashtag categories are replaced, not merged) — and persists
exactly the merged document to storage. -/
theorem c9_update_shallow (d n : JDoc) (hn : (n.map Prod.fst).Nodup) (k : PyStr) :
    aLookup k (updateData d n).fst = firstSome (aLookup k n) (aLookup k d)
      ∧ (updateData d n).snd = some (updateData d n).fst := by
  refine ⟨?_, rfl⟩
  show aLookup k (pyDictUpdate d n) = _
  exact aLookup_pyDictUpdate d n hn k

/-- Claim C9 (witness): the amended theorem applied to the concrete
documents of the counterexample. -/
theorem c9_update_shallow_witness :
    aLookup (S "hashtags") (updateData docD docN).fst
      = some (.obj [(S "food", .arr [S "#yum"])]) := by
  have h := (c9_update_shallow docD docN (by decide) (S "hashtags")).1
  rw [h]
  rfl

/-- Claim C10 (counterexample): the value `"N/A"` is also returned for
the nonempty, marker-free text `"N/A"` (as its first line), so the
sentinel is not produced only for empty marker-free text. -/
theorem c10_na_first_line_counter :
    extract_master_prompt (S "N/A") = S "N/A"
      ∧ containsSub (S "N/A") (S "MASTER PROMPT") = false
      ∧ S "N/A" ≠ ([] : PyStr) :=
  ⟨by decide, by decide, by decide⟩

/-- Claim C10 (amended): when the marker `MASTER PROMPT` occurs but
nothing is collected before the next heading/rule line or end of text,
the extracted master prompt is the empty string (the join of no lines),
not `"N/A"`; when the marker is absent the result is `"N/A"` for empty
text and the first line otherwise — so the fallback branch produces the
sentinel only on empty text, though the same value can also arrive as a
literal first line. -/
theorem c10_master_prompt (raw : PyStr) :
    (containsSub raw (S "MASTER PROMPT") = true →
        mpCollect (splitLines raw) false = [] →
        extract_master_prompt raw = [])
      ∧ (containsSub raw (S "MASTER PROMPT") = false →
          extract_master_prompt raw =
            if raw = [] then S "N/A" else (splitLines raw).headD []) := by
  constructor
  · intro h hc
    unfold extract_master_prompt
    rw [if_pos h, hc]
    rfl
  · intro h
    unfold extract_master_prompt
    by_cases hr : raw = []
    · subst hr
      rfl
    · simp [h, hr]

/-- Claim C10 (witness): the amended theorem applied to
`"MASTER PROMPT\n---"`, which collects nothing. -/
theorem c10_master_prompt_witness :
    extract_master_prompt (S "MASTER PROMPT\n---") = []
      ∧ ([] : PyStr) ≠ S "N/A" :=
  ⟨(c10_master_prompt (S "MASTER PROMPT\n---")).1 (by decide) (by decide), by decide⟩

/-- Tokens of `str.split()` are nonempty and whitespace-free (given a
whitespace-free accumulator). -/
theorem splitWsAux_tokens :
    ∀ (s acc : PyStr), (∀ c ∈ acc, pyIsSpace c = false) →
      ∀ w ∈ splitWsAux s acc, w ≠ [] ∧ ∀ c ∈ w, pyIsSpace c = false := by
  intro s
  induction s with
  | nil =>
    intro acc hacc w hw
    unfold splitWsAux at hw
    by_cases ha : acc = []
    · rw [if_pos ha] at hw
      exact absurd hw (List.not_mem_nil w)
    · rw [if_neg ha] at hw
      rw [List.mem_singleton.mp hw]
      refine ⟨fun hrev => ha (by simpa using congrArg List.reverse hrev), ?_⟩
      intro c hc
      exact hacc c (List.mem_reverse.mp hc)
  | cons c rest ih =>
    intro acc hacc w hw
    unfold splitWsAux at hw
    by_cases hsp : pyIsSpace c = true
    · rw [if_pos hsp] at hw
      by_cases ha : acc = []
      · rw [if_pos ha] at hw
        exact ih [] (by intro x hx; exact absurd hx (List.not_mem_nil x)) w hw
      · rw [if_neg ha] at hw
        rcases List.mem_cons.mp hw with h1 | h1
        · rw [h1]
          refine ⟨fun hrev => ha (by simpa using congrArg List.reverse hrev), ?_⟩
          intro x hx
          exact hacc x (List.mem_reverse.mp hx)
        · exact ih [] (by intro x hx; exact absurd hx (List.not_mem_nil x)) w h1
    · rw [if_neg hsp] at hw
      refine ih (c :: acc) ?_ w hw
      intro x hx
      rcases List.mem_cons.mp hx with h1 | h1
      · rw [h1]
        cases hc : pyIsSpace c
        · rfl
        · exact absurd hc hsp
      · exact hacc x h1

/-- A whitespace-free string has no whitespace run. -/
theorem noWsRun_of_all : ∀ w : PyStr, (∀ c ∈ w, pyIsSpace c = false) → noWsRun w = true := by
  intro w
  induction w with
  | nil => intro _; rfl
  | cons a rest ih =>
    intro hw
    cases rest with
    | nil => rfl
    | cons b r =>
      have ha := hw a (List.mem_cons_self _ _)
      have hrest : ∀ c ∈ b :: r, pyIsSpace c = false :=
        fun c hc => hw c (List.mem_cons_of_mem _ hc)
      show (!(pyIsSpace a && pyIsSpace b) && noWsRun (b :: r)) = true
      rw [ha, ih hrest]
      rfl

/-- A whitespace-free string does not start with whitespace. -/
theorem headNoWs_of_all (w : PyStr) (hw : ∀ c ∈ w, pyIsSpace c = false) :
    headNoWs w = true := by
  cases w with
  | nil => rfl
  | cons a rest =>
    show (!pyIsSpace a) = true
    rw [hw a (List.mem_cons_self _ _)]
    rfl

/-- A whitespace-free string does not end with whitespace. -/
theorem lastNoWs_of_all (w : PyStr) (hw : ∀ c ∈ w, pyIsSpace c = false) :
    lastNoWs w = true :=
  headNoWs_of_all w.reverse (fun c hc => hw c (List.mem_reverse.mp hc))

/-- The `joinSp` of a token list with a nonempty head is nonempty. -/
theorem joinSp_ne_nil (ts : List PyStr)
    (h : ∀ w ∈ ts, w ≠ [] ∧ ∀ c ∈ w, pyIsSpace c = false) (hts : ts ≠ []) :
    joinSp ts ≠ [] := by
  cases ts with
  | nil => exact absurd rfl hts
  | cons w rest =>
    have hw := (h w (List.mem_cons_self _ _)).1
    cases rest with
    | nil => exact hw
    | cons w₂ rest₂ =>
      show w ++ ' ' :: joinSp (w₂ :: rest₂) ≠ []
      simp

/-- Prepending a whitespace-free block preserves `noWsRun`. -/
theorem noWsRun_append_left (A B : PyStr) (hA : ∀ c ∈ A, pyIsSpace c = false)
    (hB : noWsRun B = true) : noWsRun (A ++ B) = true := by
  induction A with
  | nil => exact hB
  | cons a A' ih =>
    have ha := hA a (List.mem_cons_self _ _)
    have hA' : ∀ c ∈ A', pyIsSpace c = false := fun c hc => hA c (List.mem_cons_of_mem _ hc)
    rw [List.cons_append]
    cases hx : A' ++ B with
    | nil => rfl
    | cons b r =>
      show (!(pyIsSpace a && pyIsSpace b) && noWsRun (b :: r)) = true
      rw [ha, ← hx, ih hA']
      rfl

/-- Prefixing a single space keeps `noWsRun` when the rest does not
start with whitespace. -/
theorem noWsRun_cons_space (J : PyStr) (hJ : noWsRun J = true) (hh : headNoWs J = true) :
    noWsRun (' ' :: J) = true := by
  cases J with
  | nil => rfl
  | cons b r =>
    have hb : pyIsSpace b = false := by
      have : (!pyIsSpace b) = true := hh
      cases hx : pyIsSpace b
      · rfl
      · rw [hx] at this
        exact absurd this (by decide)
    show (!(pyIsSpace ' ' && pyIsSpace b) && noWsRun (b :: r)) = true
    rw [hb, hJ]
    rfl

/-- The head of an append with a nonempty non-whitespace-headed left
part. -/
theorem headNoWs_append_left (X Y : PyStr) (hX : X ≠ []) (h : headNoWs X = true) :
    headNoWs (X ++ Y) = true := by
  cases X with
  | nil => exact absurd rfl hX
  | cons a x' => exact h

/-- The last character of an append with a nonempty right part. -/
theorem lastNoWs_append_right (A B : PyStr) (hB : B ≠ []) (h : lastNoWs B = true) :
    lastNoWs (A ++ B) = true := by
  unfold lastNoWs
  rw [List.reverse_append]
  exact headNoWs_append_left B.reverse A.reverse
    (fun hrev => hB (by simpa using congrArg List.reverse hrev)) h

/-- Consing any character onto a nonempty string keeps its last
character. -/
theorem lastNoWs_cons (c : Char) (J : PyStr) (hJ : J ≠ []) (h : lastNoWs J = true) :
    lastNoWs (c :: J) = true := by
  unfold lastNoWs
  rw [show (c :: J) = [c] ++ J from rfl, List.reverse_append]
  exact headNoWs_append_left J.reverse [c].reverse
    (fun hrev => hJ (by simpa using congrArg List.reverse hrev)) h

/-- Joining nonempty whitespace-free tokens with single spaces yields a
collapsed string: no whitespace run, no leading or trailing
whitespace. -/
theorem joinSp_props :
    ∀ ts : List PyStr, (∀ w ∈ ts, w ≠ [] ∧ ∀ c ∈ w, pyIsSpace c = false) →
      noWsRun (joinSp ts) = true ∧ headNoWs (joinSp ts) = true
        ∧ lastNoWs (joinSp ts) = true := by
  intro ts
  induction ts with
  | nil => intro _; exact ⟨rfl, rfl, rfl⟩
  | cons w rest ih =>
    intro h
    obtain ⟨hwne, hwall⟩ := h w (List.mem_cons_self _ _)
    have hrest : ∀ x ∈ rest, x ≠ [] ∧ ∀ c ∈ x, pyIsSpace c = false :=
      fun x hx => h x (List.mem_cons_of_mem _ hx)
    cases rest with
    | nil =>
      exact ⟨noWsRun_of_all w hwall, headNoWs_of_all w hwall, lastNoWs_of_all w hwall⟩
    | cons w₂ rest₂ =>
      obtain ⟨hrun, hhead, hlast⟩ := ih hrest
      have hJne : joinSp (w₂ :: rest₂) ≠ [] := joinSp_ne_nil _ hrest (by simp)
      refine ⟨?_, ?_, ?_⟩
      · show noWsRun (w ++ ' ' :: joinSp (w₂ :: rest₂)) = true
        exact noWsRun_append_left w _ hwall (noWsRun_cons_space _ hrun hhead)
      · show headNoWs (w ++ ' ' :: joinSp (w₂ :: rest₂)) = true
        exact headNoWs_append_left w _ hwne (headNoWs_of_all w hwall)
      · show lastNoWs (w ++ ' ' :: joinSp (w₂ :: rest₂)) = true
        exact lastNoWs_append_right w _ (by simp)
          (lastNoWs_cons ' ' _ hJne hlast)

/-- Dropping leading whitespace leaves no leading whitespace. -/
theorem headNoWs_dropWhile (l : PyStr) :
    headNoWs (l.dropWhile pyIsSpace) = true := by
  induction l with
  | nil => rfl
  | cons c rest ih =>
    rw [List.dropWhile_cons]
    by_cases hc : pyIsSpace c = true
    · rw [if_pos hc]
      exact ih
    · rw [if_neg hc]
      show (!pyIsSpace c) = true
      cases hx : pyIsSpace c
      · rfl
      · exact absurd hx hc

/-- A prefix of a string with a non-whitespace head keeps that head. -/
theorem headNoWs_of_pre (X Y : PyStr) (hp : X <+: Y) (h : headNoWs Y = true) :
    headNoWs X = true := by
  obtain ⟨t, ht⟩ := hp
  cases X with
  | nil => rfl
  | cons a x' =>
    rw [← ht] at h
    exact h

/-- The `dropTrail` leaves no trailing whitespace. -/
theorem lastNoWs_dropTrail (l : PyStr) :
    lastNoWs (dropTrail pyIsSpace l) = true := by
  unfold lastNoWs dropTrail
  rw [List.reverse_reverse]
  exact headNoWs_dropWhile l.reverse

/-- The `dropTrail` is a prefix. -/
theorem dropTrail_pre (l : PyStr) : dropTrail pyIsSpace l <+: l := by
  unfold dropTrail
  have h : (l.reverse.dropWhile pyIsSpace) <:+ l.reverse := List.dropWhile_suffix _
  have h2 := List.reverse_prefix.mpr h
  rwa [List.reverse_reverse] at h2

/-- The `str.strip()` has no leading whitespace. -/
theorem pyStrip_headNoWs (s : PyStr) : headNoWs (pyStrip s) = true := by
  unfold pyStrip stripChars
  exact headNoWs_of_pre _ _ (dropTrail_pre _) (headNoWs_dropWhile s)

/-- The `str.strip()` has no trailing whitespace. -/
theorem pyStrip_lastNoWs (s : PyStr) : lastNoWs (pyStrip s) = true := by
  unfold pyStrip stripChars
  exact lastNoWs_dropTrail _

/-- Claim C8 (counterexample): sanitizing `"a <b> c"` collapses the
whitespace first and only then removes the tag, leaving the double
space `"a  c"` — the final text does contain a run of two whitespace
characters. -/
theorem c8_tag_removal_reintroduces_counter :
    sanitize (S "a <b> c") = S "a  c"
      ∧ noWsRun (S "a  c") = false
      ∧ noWsRun (collapseWs (S "a <b> c")) = true :=
  ⟨by decide, by decide, by decide⟩

/-- Claim C8 (amended): for every raw input the sanitized text has no
leading or trailing whitespace (the final strip), and the whitespace
collapse — which runs before tag and dangerous-substring removal —
produces a string with no run of two or more whitespace characters and
no leading or trailing whitespace; the subsequent removals can
reintroduce interior runs of spaces. -/
theorem c8_sanitize_whitespace (text : PyStr) :
    headNoWs (sanitize text) = true
      ∧ lastNoWs (sanitize text) = true
      ∧ noWsRun (collapseWs text) = true
      ∧ headNoWs (collapseWs text) = true
      ∧ lastNoWs (collapseWs text) = true := by
  have htok := splitWsAux_tokens text []
    (fun c hc => absurd hc (List.not_mem_nil c))
  have hprops := joinSp_props (pySplitWs text) htok
  exact ⟨pyStrip_headNoWs _, pyStrip_lastNoWs _, hprops.1, hprops.2.1, hprops.2.2⟩

end RekaKata
